import Mathlib

/-!
Verification development for the kube-proxy endpoints change-tracking core
(`pkg/proxy/endpoints.go`): a shallow embedding of the data model, the
`EndpointsChangeTracker` ingest operation (`EndpointSliceUpdate`), the
authoritative-map operations (`Update`, `merge`, `unmerge`,
`getLocalReadyEndpointIPs`, `LocalReadyEndpoints`) and the pure staleness /
activation detector (`detectStaleConntrackEntries`), together with theorems
settling the specification's claims about them.

Go maps are embedded as association lists (`lookupA` / `setA` / `delA` give
the read / assign / delete semantics of a Go map; a well-formed map has
`Nodup` keys).  `time.Time` is embedded as `Nat` (nanoseconds), with `0`
playing the role of the zero time.  Fallible or panicking paths are embedded
with `Option`: a `none` result of the ingest step models a run-time panic
(nil-pointer dereference).
-/

set_option autoImplicit false

namespace Proxy

/-- Association-list lookup, the semantics of a Go map read (`m[k]`),
returning `none` when the key is absent. -/
def lookupA {α β : Type} [DecidableEq α] : List (α × β) → α → Option β
  | [], _ => none
  | (a, b) :: rest, k => if a = k then some b else lookupA rest k

/-- Association-list assignment, the semantics of a Go map write
(`m[k] = v`): replaces the first binding of `k`, or appends a new one. -/
def setA {α β : Type} [DecidableEq α] : List (α × β) → α → β → List (α × β)
  | [], k, v => [(k, v)]
  | (a, b) :: rest, k, v => if a = k then (k, v) :: rest else (a, b) :: setA rest k v

/-- Association-list deletion, the semantics of Go's `delete(m, k)`. -/
def delA {α β : Type} [DecidableEq α] : List (α × β) → α → List (α × β)
  | [], _ => []
  | (a, b) :: rest, k => if a = k then delA rest k else (a, b) :: delA rest k

/-- Modelled from the spec: the owning-object key (`types.NamespacedName`),
"the identity of the higher-level object (e.g. namespace+name)". -/
structure NamespacedName where
  ns : String
  name : String
deriving DecidableEq, Repr

/-- Modelled from the spec: the protocol component of a service-port
identity (`v1.Protocol`). -/
inductive Protocol where
  | TCP
  | UDP
  | SCTP
deriving DecidableEq, Repr

/-- Modelled from the spec: `ServicePortIdentity` — "tuple of (namespace,
name, port-name, protocol)"; `ServicePortName` in the source, whose fields
`NamespacedName`, `Port` and `Protocol` are visible at the use sites in
`endpoints.go`. -/
structure ServicePortName where
  namespacedName : NamespacedName
  port : String
  protocol : Protocol
deriving DecidableEq, Repr

/-- `BaseEndpointInfo` from `endpoints.go`: the base realization of the
`Endpoint` capability set.  `endpoint` caches `net.JoinHostPort(ip, port)`
and is what the `String()` accessor returns. -/
structure BaseEndpointInfo where
  ip : String
  port : Nat
  endpoint : String
  isLocal : Bool
  ready : Bool
  serving : Bool
  terminating : Bool
  zoneHints : List String
deriving DecidableEq, Repr

/-- `net.JoinHostPort`: brackets the host when it contains a colon
(literal IPv6 address). -/
def joinHostPort (host : String) (port : Nat) : String :=
  if host.contains ':' then
    "[" ++ host ++ "]:" ++ toString port
  else
    host ++ ":" ++ toString port

/-- `newBaseEndpointInfo` from `endpoints.go`. -/
def newBaseEndpointInfo (ip : String) (port : Nat) (isLocal ready serving terminating : Bool)
    (zoneHints : List String) : BaseEndpointInfo :=
  { ip := ip
    port := port
    endpoint := joinHostPort ip port
    isLocal := isLocal
    ready := ready
    serving := serving
    terminating := terminating
    zoneHints := zoneHints }

/-- Modelled from the spec: `ServiceEndpoint` (declared in the repository's
`pkg/proxy/types.go`, not under `src/`), built at the single use site in
`detectStaleConntrackEntries` as `{Endpoint: ep.String(), ServicePortName:
svcPortName}`. -/
structure ServiceEndpoint where
  endpoint : String
  servicePortName : ServicePortName
deriving DecidableEq, Repr

/-- `EndpointsMap` from `endpoints.go`: a Go map from `ServicePortName` to a
list of endpoints, embedded as an association list. -/
abbrev EndpointsMap := List (ServicePortName × List BaseEndpointInfo)

/-- Go map read `em[svcPortName]` on an `EndpointsMap`: absent keys read as
the empty (nil) slice. -/
def lookupEM (em : EndpointsMap) (svcPortName : ServicePortName) : List BaseEndpointInfo :=
  (lookupA em svcPortName).getD []

/-- Inner loop of the stale-endpoint detection in
`detectStaleConntrackEntries`: the check `newEndpointsMap[svcPortName][i].String() ==
ep.String() && newEndpointsMap[svcPortName][i].IsServing() == ep.IsServing()`
for some index `i`. -/
def endpointFoundInNew (newList : List BaseEndpointInfo) (ep : BaseEndpointInfo) : Bool :=
  newList.any (fun e2 => e2.endpoint == ep.endpoint && e2.serving == ep.serving)

/-- Per-entry body of the first loop of `detectStaleConntrackEntries`: walk
one old endpoint list, skip non-serving endpoints, and emit a
`ServiceEndpoint` for each endpoint with no identical (same identity string,
same serving flag) counterpart in the new list. -/
def staleForList (newList : List BaseEndpointInfo) (svcPortName : ServicePortName) :
    List BaseEndpointInfo → List ServiceEndpoint
  | [] => []
  | ep :: rest =>
      (if ep.serving && !endpointFoundInNew newList ep then
        [{ endpoint := ep.endpoint, servicePortName := svcPortName }]
      else []) ++ staleForList newList svcPortName rest

/-- First loop of `detectStaleConntrackEntries`: iterate the old map,
skipping non-UDP service ports. -/
def staleUDPEndpoints (newEndpointsMap : EndpointsMap) : EndpointsMap → List ServiceEndpoint
  | [] => []
  | (svcPortName, epList) :: rest =>
      (if svcPortName.protocol ≠ Protocol.UDP then []
       else staleForList (lookupEM newEndpointsMap svcPortName) svcPortName epList)
        ++ staleUDPEndpoints newEndpointsMap rest

/-- The serving-endpoint count loops of `detectStaleConntrackEntries`
(`epServing` / `oldEpServing`). -/
def servingCount (epList : List BaseEndpointInfo) : Nat :=
  epList.countP (fun ep => ep.serving)

/-- Second loop of `detectStaleConntrackEntries`: a UDP service port of the
new map is newly active when its new serving count is positive and its old
serving count (absent keys reading as the empty list) is zero. -/
def newlyActiveUDP (oldEndpointsMap : EndpointsMap) : EndpointsMap → List ServicePortName
  | [] => []
  | (svcPortName, epList) :: rest =>
      (if svcPortName.protocol ≠ Protocol.UDP then []
       else if servingCount epList > 0 ∧ servingCount (lookupEM oldEndpointsMap svcPortName) = 0 then
        [svcPortName]
       else []) ++ newlyActiveUDP oldEndpointsMap rest

/-- `detectStaleConntrackEntries` from `endpoints.go`: the pure detector.
The Go function appends into two caller-supplied slices; the embedding
returns the two lists (deleted UDP endpoints, newly active UDP services). -/
def detectStaleConntrackEntries (oldEndpointsMap newEndpointsMap : EndpointsMap) :
    List ServiceEndpoint × List ServicePortName :=
  (staleUDPEndpoints newEndpointsMap oldEndpointsMap,
   newlyActiveUDP oldEndpointsMap newEndpointsMap)

/-- `endpointsChange` from `endpoints.go`: the accumulated before/after pair
for one owning object. -/
structure endpointsChange where
  previous : EndpointsMap
  current : EndpointsMap
deriving DecidableEq, Repr

/-- `EndpointsChangeTracker` from `endpoints.go`.  The mutex, the optional
`processEndpointsMapChange` callback and the external `EndpointSliceCache`
are not data; `pendingChanges` models the cache's checkout surface
(Modelled from the spec: the external endpoint-group cache "must ... expose
`(previous, current)` AuthoritativeMap subsets per owning key through the
same `CheckoutChanges` surface the tracker exposes").  Times are `Nat`
nanoseconds with `0` as Go's zero `time.Time`. -/
structure EndpointsChangeTracker where
  pendingChanges : List (NamespacedName × endpointsChange)
  lastChangeTriggerTimes : List (NamespacedName × List Nat)
  trackerStartTime : Nat
deriving DecidableEq, Repr

/-- `supportedEndpointSliceAddressTypes` from `endpoints.go`:
`sets.New[string](string(discovery.AddressTypeIPv4), string(discovery.AddressTypeIPv6))`. -/
def supportedEndpointSliceAddressTypes : List String := ["IPv4", "IPv6"]

/-- The constant `v1.EndpointsLastChangeTriggerTime`. -/
def endpointsLastChangeTriggerTimeKey : String :=
  "endpoints.kubernetes.io/last-change-trigger-time"

/-- Modelled from the spec: the fields of a `discovery.EndpointSlice` that
`EndpointSliceUpdate` reads.  `ownerKey` is the result of the external
`endpointSliceCacheKeys` helper (defined in the repository's
`endpointslicecache.go`, not under `src/`): `none` models the error case of
an update that does not "resolve to a valid owning-object key". -/
structure EndpointSlice where
  addressType : String
  annotations : List (String × String)
  ownerKey : Option NamespacedName
deriving DecidableEq, Repr

/-- `getLastChangeTriggerTime` from `endpoints.go`.  `parse` embeds Go's
`time.Parse(time.RFC3339Nano, ·)`, with `none` for a parse error; on error
the Go function falls through and returns the zero value `val`, embedded as
`0`. -/
def getLastChangeTriggerTime (parse : String → Option Nat)
    (theAnnotations : List (String × String)) : Nat :=
  match lookupA theAnnotations endpointsLastChangeTriggerTimeKey with
  | none => 0
  | some val =>
      match parse val with
      | none => 0
      | some t => t

/-- Observable outcome of one `EndpointSliceUpdate` call: the returned
boolean, the tracker state afterwards, and whether the two metrics counters
(`metrics.EndpointChangesTotal`, `metrics.EndpointChangesPending`) were
incremented during the call. -/
structure TrackerUpdateOutput where
  changed : Bool
  ect : EndpointsChangeTracker
  endpointChangesTotalIncremented : Bool
  endpointChangesPendingIncremented : Bool
deriving DecidableEq, Repr

/-- `EndpointSliceUpdate` from `endpoints.go`.  The endpoint slice argument
is a Go pointer, embedded as `Option EndpointSlice`; the overall result is
`none` exactly when the call panics.  The first statement of the Go body
reads `endpointSlice.AddressType`, so a nil slice is dereferenced *before*
the `endpointSlice == nil` guard that follows it: with `none` the embedding
returns `none` (nil-pointer panic) and the guard is unreachable.  The
external `endpointSliceCache.updatePending` call is embedded by its
observable effect: `cacheChangeNeeded` is the boolean it returns and
`cachePendingAfter` the pending-change set it leaves behind. -/
def EndpointSliceUpdate (parse : String → Option Nat) (ect : EndpointsChangeTracker)
    (cacheChangeNeeded : Bool) (cachePendingAfter : List (NamespacedName × endpointsChange))
    (endpointSlice : Option EndpointSlice) (removeSlice : Bool) :
    Option TrackerUpdateOutput :=
  match endpointSlice with
  | none => none
  | some slice =>
      if ¬ supportedEndpointSliceAddressTypes.contains slice.addressType then
        some { changed := false, ect := ect,
               endpointChangesTotalIncremented := false,
               endpointChangesPendingIncremented := false }
      else
        match slice.ownerKey with
        | none =>
            some { changed := false, ect := ect,
                   endpointChangesTotalIncremented := false,
                   endpointChangesPendingIncremented := false }
        | some namespacedName =>
            let ect1 : EndpointsChangeTracker := { ect with pendingChanges := cachePendingAfter }
            if cacheChangeNeeded then
              if removeSlice then
                some { changed := true,
                       ect := { ect1 with lastChangeTriggerTimes :=
                         (delA ect1.lastChangeTriggerTimes namespacedName) },
                       endpointChangesTotalIncremented := true,
                       endpointChangesPendingIncremented := true }
              else
                let t := getLastChangeTriggerTime parse slice.annotations
                if t ≠ 0 ∧ ect.trackerStartTime < t then
                  some { changed := true,
                         ect := { ect1 with lastChangeTriggerTimes :=
                           (setA ect1.lastChangeTriggerTimes namespacedName
                             ((lookupA ect1.lastChangeTriggerTimes namespacedName).getD [] ++ [t])) },
                         endpointChangesTotalIncremented := true,
                         endpointChangesPendingIncremented := true }
                else
                  some { changed := true, ect := ect1,
                         endpointChangesTotalIncremented := true,
                         endpointChangesPendingIncremented := true }
            else
              some { changed := false, ect := ect1,
                     endpointChangesTotalIncremented := true,
                     endpointChangesPendingIncremented := false }

/-- `checkoutChanges` from `endpoints.go`: returns the pending changes and
clears them. -/
def checkoutChanges (ect : EndpointsChangeTracker) :
    List (NamespacedName × endpointsChange) × EndpointsChangeTracker :=
  (ect.pendingChanges, { ect with pendingChanges := [] })

/-- Body of the loop in `checkoutTriggerTimes`: merge one buffered entry into
the accumulator (`m[k] = v` when absent, `m[k] = append(prev, v...)` when
present — both equal to appending to the current, possibly nil, value). -/
def checkoutTriggerTimesInto (acc buf : List (NamespacedName × List Nat)) :
    List (NamespacedName × List Nat) :=
  buf.foldl (fun a p => setA a p.1 ((lookupA a p.1).getD [] ++ p.2)) acc

/-- `checkoutTriggerTimes` from `endpoints.go`: merges the buffered trigger
times into the caller's accumulator and empties the local buffer. -/
def checkoutTriggerTimes (acc : List (NamespacedName × List Nat))
    (ect : EndpointsChangeTracker) :
    List (NamespacedName × List Nat) × EndpointsChangeTracker :=
  (checkoutTriggerTimesInto acc ect.lastChangeTriggerTimes,
   { ect with lastChangeTriggerTimes := [] })

/-- `UpdateEndpointsMapResult` from `endpoints.go`.  `updatedServices` is a
`sets.Set`, embedded as a duplicate-free list built with `insertNN`. -/
structure UpdateEndpointsMapResult where
  updatedServices : List NamespacedName
  deletedUDPEndpoints : List ServiceEndpoint
  newlyActiveUDPServices : List ServicePortName
  lastChangeTriggerTimes : List (NamespacedName × List Nat)
deriving DecidableEq, Repr

/-- Set insertion for `sets.Set[types.NamespacedName]`. -/
def insertNN (s : List NamespacedName) (nn : NamespacedName) : List NamespacedName :=
  if nn ∈ s then s else s ++ [nn]

/-- `merge` from `endpoints.go`: `em[svcPortName] = other[svcPortName]` for
every key of `other`. -/
def merge (em other : EndpointsMap) : EndpointsMap :=
  (other.map Prod.fst).foldl (fun m svcPortName => setA m svcPortName (lookupEM other svcPortName)) em

/-- `unmerge` from `endpoints.go`: `delete(em, svcPortName)` for every key
of `other`. -/
def unmerge (em other : EndpointsMap) : EndpointsMap :=
  (other.map Prod.fst).foldl (fun m svcPortName => delA m svcPortName) em

/-- The per-change loop body of `EndpointsMap.Update`: record the updated
service, unmerge the previous state, merge the current state, and append the
detector's two lists.  The optional `processEndpointsMapChange` observer
callback reads but never modifies the maps, so it has no embedded effect. -/
def updateLoop : EndpointsMap → UpdateEndpointsMapResult →
    List (NamespacedName × endpointsChange) → EndpointsMap × UpdateEndpointsMapResult
  | em, result, [] => (em, result)
  | em, result, (nn, change) :: rest =>
      let em1 := merge (unmerge em change.previous) change.current
      let detected := detectStaleConntrackEntries change.previous change.current
      updateLoop em1
        { updatedServices := insertNN result.updatedServices nn
          deletedUDPEndpoints := result.deletedUDPEndpoints ++ detected.1
          newlyActiveUDPServices := result.newlyActiveUDPServices ++ detected.2
          lastChangeTriggerTimes := result.lastChangeTriggerTimes } rest

/-- The empty `UpdateEndpointsMapResult` built at the top of
`EndpointsMap.Update`. -/
def emptyUpdateResult : UpdateEndpointsMapResult :=
  { updatedServices := []
    deletedUDPEndpoints := []
    newlyActiveUDPServices := []
    lastChangeTriggerTimes := [] }

/-- `EndpointsMap.Update` from `endpoints.go`.  The tracker pointer is
embedded as an `Option`; the Go method mutates `em` and the tracker in
place, so the embedding returns the new map, the result, and the tracker
left behind (`none` stays `none`). -/
def Update (em : EndpointsMap) (ect : Option EndpointsChangeTracker) :
    EndpointsMap × UpdateEndpointsMapResult × Option EndpointsChangeTracker :=
  match ect with
  | none => (em, emptyUpdateResult, none)
  | some t =>
      let checked := checkoutChanges t
      let looped := updateLoop em emptyUpdateResult checked.1
      let times := checkoutTriggerTimes looped.2.lastChangeTriggerTimes checked.2
      (looped.1, { looped.2 with lastChangeTriggerTimes := times.1 }, some times.2)

/-- Go map read on the per-service local-IP sets
(`localIPs[nsn]`, nil when absent). -/
def lookupIPs (localIPs : List (NamespacedName × List String)) (nsn : NamespacedName) :
    List String :=
  (lookupA localIPs nsn).getD []

/-- `sets.Set[string]` insertion: a set is embedded as a duplicate-free list
in insertion order. -/
def insertSet (s : List String) (x : String) : List String :=
  if x ∈ s then s else s ++ [x]

/-- The `localIPs[nsn]` update in `getLocalReadyEndpointIPs`: create the set
if absent, then insert the endpoint's IP. -/
def addLocalIP (localIPs : List (NamespacedName × List String)) (nsn : NamespacedName)
    (ip : String) : List (NamespacedName × List String) :=
  setA localIPs nsn (insertSet (lookupIPs localIPs nsn) ip)

/-- Inner loop of `getLocalReadyEndpointIPs` over one endpoint list: skip
non-ready endpoints, insert the IPs of local ones under the owning service's
namespaced name. -/
def localIPsOfList (nsn : NamespacedName) :
    List BaseEndpointInfo → List (NamespacedName × List String) →
    List (NamespacedName × List String)
  | [], localIPs => localIPs
  | ep :: rest, localIPs =>
      localIPsOfList nsn rest
        (if !ep.ready then localIPs
         else if ep.isLocal then addLocalIP localIPs nsn ep.ip
         else localIPs)

/-- Outer loop of `getLocalReadyEndpointIPs` over the map's entries. -/
def localIPsLoop : EndpointsMap → List (NamespacedName × List String) →
    List (NamespacedName × List String)
  | [], localIPs => localIPs
  | (svcPortName, epList) :: rest, localIPs =>
      localIPsLoop rest (localIPsOfList svcPortName.namespacedName epList localIPs)

/-- `getLocalReadyEndpointIPs` from `endpoints.go`. -/
def getLocalReadyEndpointIPs (em : EndpointsMap) : List (NamespacedName × List String) :=
  localIPsLoop em []

/-- `LocalReadyEndpoints` from `endpoints.go`: the cardinality of each
per-service IP set. -/
def LocalReadyEndpoints (em : EndpointsMap) : List (NamespacedName × Nat) :=
  (getLocalReadyEndpointIPs em).map (fun p => (p.1, p.2.length))

/-- Stated from the spec's words, for comparison with the source
computation: the multiset of IP addresses of endpoints that are both
`is-ready` and `is-local`, "taken across the endpoint lists of all of that
service's ports". -/
def readyLocalIPsSpec (nsn : NamespacedName) : EndpointsMap → List String
  | [] => []
  | (svcPortName, epList) :: rest =>
      (if svcPortName.namespacedName = nsn then
        ((epList.filter (fun ep => ep.ready && ep.isLocal)).map (fun ep => ep.ip))
      else []) ++ readyLocalIPsSpec nsn rest

/-! Concrete fixtures used by the witness and counterexample theorems. -/

/-- A concrete owning-object key. -/
def nnA : NamespacedName := ⟨"ns1", "svc1"⟩

/-- A second concrete owning-object key. -/
def nnB : NamespacedName := ⟨"ns1", "svc2"⟩

/-- A concrete UDP service port of `nnA`. -/
def spnU : ServicePortName := ⟨nnA, "p", Protocol.UDP⟩

/-- A concrete TCP service port of `nnA`. -/
def spnT : ServicePortName := ⟨nnA, "p", Protocol.TCP⟩

/-- A concrete UDP service port of `nnB`. -/
def spnW : ServicePortName := ⟨nnB, "q", Protocol.UDP⟩

/-- A concrete local, ready, serving endpoint. -/
def ep0 : BaseEndpointInfo := ⟨"10.0.0.1", 80, "10.0.0.1:80", true, true, true, false, []⟩

/-- A concrete non-local, ready, serving endpoint. -/
def ep1 : BaseEndpointInfo := ⟨"10.0.0.2", 80, "10.0.0.2:80", false, true, true, false, []⟩

/-- A map with one UDP service port backed by `ep0`. -/
def emC4 : EndpointsMap := [(spnU, [ep0])]

/-- A change contribution `X` re-binding `spnU` to `ep1`. -/
def xC4 : EndpointsMap := [(spnU, [ep1])]

/-- A map whose keys are disjoint from `xC4`'s. -/
def emC4w : EndpointsMap := [(spnT, [ep0])]

/-- The map after applying `(previous = ∅, current = xC4)` and then
`(previous = xC4, current = ∅)` to `emC4` through two `Update` cycles. -/
def emC4after : EndpointsMap :=
  (Update ((Update emC4 (some ⟨[(nnA, ⟨[], xC4⟩)], [], 0⟩)).1)
    (some ⟨[(nnA, ⟨xC4, []⟩)], [], 0⟩)).1

/-- A two-entry starting map for the `Update` postcondition witness. -/
def em5 : EndpointsMap := [(spnT, [ep0]), (spnW, [ep1])]

/-- Previous contribution of the single checked-out change in the witness. -/
def prev5 : EndpointsMap := [(spnT, [ep0])]

/-- Current contribution of the single checked-out change in the witness. -/
def cur5 : EndpointsMap := [(spnU, [ep1])]

/-- A tracker with no pending changes and no buffered trigger times. -/
def trkEmpty : EndpointsChangeTracker := ⟨[], [], 0⟩

/-- Previous map for the stale-detection witness: `spnU` served by `ep0`. -/
def oldW : EndpointsMap := [(spnU, [ep0])]

/-- Current map for the activation witness: `spnU` served by `ep1`. -/
def newW : EndpointsMap := [(spnU, [ep1])]

/-- A parse function recognizing one RFC3339 string as the instant `5`. -/
def parse0 : String → Option Nat := fun s => if s = "ts5" then some 5 else none

/-- A supported-address-type slice for `nnA` carrying a trigger-time
annotation that `parse0` reads as `5`. -/
def slice6 : EndpointSlice := ⟨"IPv4", [(endpointsLastChangeTriggerTimeKey, "ts5")], some nnA⟩

/-- A tracker created at instant `1` with one buffered trigger time for
`nnA`. -/
def ect6 : EndpointsChangeTracker := ⟨[], [(nnA, [2])], 1⟩

/-- A slice whose address type `FQDN` is outside the supported set. -/
def sliceFQDN : EndpointSlice := ⟨"FQDN", [], some nnA⟩

/-- A fresh tracker for the unsupported-address-type counterexample. -/
def ect8 : EndpointsChangeTracker := ⟨[], [], 0⟩

/-- A non-empty cache pending set, to make any mutation observable. -/
def pend8 : List (NamespacedName × endpointsChange) := [(nnA, ⟨[], [(spnU, [ep1])]⟩)]

/-- One local ready endpoint IP backing port 80. -/
def epL80 : BaseEndpointInfo := ⟨"10.1.1.1", 80, "10.1.1.1:80", true, true, true, false, []⟩

/-- The same local ready endpoint IP backing port 443. -/
def epL443 : BaseEndpointInfo := ⟨"10.1.1.1", 443, "10.1.1.1:443", true, true, true, false, []⟩

/-- Port 80 of service `nnA`. -/
def spnP80 : ServicePortName := ⟨nnA, "http", Protocol.TCP⟩

/-- Port 443 of service `nnA`. -/
def spnP443 : ServicePortName := ⟨nnA, "https", Protocol.TCP⟩

/-- A service with one local pod IP wired to two ports. -/
def emTwoPorts : EndpointsMap := [(spnP80, [epL80]), (spnP443, [epL443])]

/-! Association-list and map-operation lemmas. -/

theorem lookupA_setA {α β : Type} [DecidableEq α] (m : List (α × β)) (k : α) (v : β) (q : α) :
    lookupA (setA m k v) q = if q = k then some v else lookupA m q := by
  induction m with
  | nil =>
      by_cases h : q = k
      · simp [setA, lookupA, h]
      · simp [setA, lookupA, h, Ne.symm h]
  | cons p rest ih =>
      obtain ⟨a, b⟩ := p
      by_cases hak : a = k
      · subst hak
        by_cases hq : q = a
        · simp [setA, lookupA, hq]
        · simp [setA, lookupA, hq, Ne.symm hq]
      · by_cases haq : a = q
        · have hqk : ¬ q = k := fun e => hak (haq.trans e)
          simp [setA, lookupA, hak, haq, hqk]
        · simp [setA, lookupA, hak, haq, ih]

theorem lookupA_delA {α β : Type} [DecidableEq α] (m : List (α × β)) (k q : α) :
    lookupA (delA m k) q = if q = k then none else lookupA m q := by
  induction m with
  | nil => simp [delA, lookupA]
  | cons p rest ih =>
      obtain ⟨a, b⟩ := p
      by_cases hak : a = k
      · subst hak
        by_cases hq : q = a
        · subst hq
          simp [delA, lookupA, ih]
        · simp [delA, lookupA, hq, Ne.symm hq, ih]
      · by_cases haq : a = q
        · have hqk : ¬ q = k := fun e => hak (haq.trans e)
          simp [delA, lookupA, hak, haq, hqk]
        · simp [delA, lookupA, hak, haq, ih]

theorem lookupA_foldl_setA {α β : Type} [DecidableEq α] (ks : List α) (f : α → β)
    (em : List (α × β)) (q : α) :
    lookupA (ks.foldl (fun m s => setA m s (f s)) em) q =
      if q ∈ ks then some (f q) else lookupA em q := by
  induction ks generalizing em with
  | nil => simp
  | cons s ks ih =>
      rw [List.foldl_cons, ih]
      by_cases hq : q ∈ ks
      · simp [hq]
      · by_cases hqs : q = s
        · simp [hq, hqs, lookupA_setA]
        · simp [hq, hqs, lookupA_setA]

theorem lookupA_foldl_delA {α β : Type} [DecidableEq α] (ks : List α)
    (em : List (α × β)) (q : α) :
    lookupA (ks.foldl (fun m s => delA m s) em) q =
      if q ∈ ks then none else lookupA em q := by
  induction ks generalizing em with
  | nil => simp
  | cons s ks ih =>
      rw [List.foldl_cons, ih]
      by_cases hq : q ∈ ks
      · simp [hq]
      · by_cases hqs : q = s
        · simp [hq, hqs, lookupA_delA]
        · simp [hq, hqs, lookupA_delA]

theorem lookupA_merge (em other : EndpointsMap) (q : ServicePortName) :
    lookupA (merge em other) q =
      if q ∈ other.map Prod.fst then some (lookupEM other q) else lookupA em q :=
  lookupA_foldl_setA (other.map Prod.fst) (fun s => lookupEM other s) em q

theorem lookupA_unmerge (em other : EndpointsMap) (q : ServicePortName) :
    lookupA (unmerge em other) q =
      if q ∈ other.map Prod.fst then none else lookupA em q :=
  lookupA_foldl_delA (other.map Prod.fst) em q

theorem updateLoop_fst (cs : List (NamespacedName × endpointsChange))
    (em : EndpointsMap) (r : UpdateEndpointsMapResult) :
    (updateLoop em r cs).1 =
      cs.foldl (fun m p => merge (unmerge m p.2.previous) p.2.current) em := by
  induction cs generalizing em r with
  | nil => rfl
  | cons c cs ih =>
      obtain ⟨nn, ch⟩ := c
      simp only [updateLoop, List.foldl_cons]
      exact ih _ _

theorem update_fst (em : EndpointsMap) (t : EndpointsChangeTracker) :
    (Update em (some t)).1 =
      t.pendingChanges.foldl (fun m p => merge (unmerge m p.2.previous) p.2.current) em := by
  simp only [Update, checkoutChanges]
  exact updateLoop_fst _ _ _

/-! Claim theorems about `Update` (C9, C5, C4). -/

/-- Claim C9: calling `Update` with an absent (nil) tracker returns the
empty `UpdateEndpointsMapResult` — empty updated-services set, empty
stale-UDP list, empty newly-active list, empty trigger-time log — and leaves
the map unchanged; it never fails. -/
theorem update_nil_tracker (em : EndpointsMap) :
    Update em none =
      (em,
       { updatedServices := []
         deletedUDPEndpoints := []
         newlyActiveUDPServices := []
         lastChangeTriggerTimes := [] },
       none) := rfl

/-- Claim C5: for an apply cycle whose checkout yields the single
owning-object change `(prev, cur)`, after `Update` the map binds every
service-port identity of `cur` to exactly `cur`'s endpoint list, every
identity of `prev` not in `cur` is absent, and every identity in neither is
unchanged; and an apply cycle with an empty checked-out change set leaves
the map unchanged. -/
theorem update_single_change_postcondition (em prev cur : EndpointsMap) (nn : NamespacedName)
    (tt : List (NamespacedName × List Nat)) (st : Nat) :
    (∀ k, k ∈ cur.map Prod.fst →
      lookupA ((Update em (some ⟨[(nn, ⟨prev, cur⟩)], tt, st⟩)).1) k = some (lookupEM cur k)) ∧
    (∀ k, k ∈ prev.map Prod.fst → k ∉ cur.map Prod.fst →
      lookupA ((Update em (some ⟨[(nn, ⟨prev, cur⟩)], tt, st⟩)).1) k = none) ∧
    (∀ k, k ∉ prev.map Prod.fst → k ∉ cur.map Prod.fst →
      lookupA ((Update em (some ⟨[(nn, ⟨prev, cur⟩)], tt, st⟩)).1) k = lookupA em k) ∧
    (∀ (em2 : EndpointsMap) (t : EndpointsChangeTracker), t.pendingChanges = [] →
      (Update em2 (some t)).1 = em2) := by
  have hmap : (Update em (some ⟨[(nn, ⟨prev, cur⟩)], tt, st⟩)).1 =
      merge (unmerge em prev) cur := by
    rw [update_fst]
    rfl
  refine ⟨?_, ?_, ?_, ?_⟩
  · intro k hk
    rw [hmap, lookupA_merge]
    simp [hk]
  · intro k hkp hkc
    rw [hmap, lookupA_merge, lookupA_unmerge]
    simp [hkp, hkc]
  · intro k hkp hkc
    rw [hmap, lookupA_merge, lookupA_unmerge]
    simp [hkp, hkc]
  · intro em2 t ht
    rw [update_fst, ht]
    rfl

/-- Witness for C5: a concrete apply cycle with one change, exercising all
three map postconditions and the empty-cycle frame condition. -/
theorem update_single_change_postcondition_witness :
    lookupA ((Update em5 (some ⟨[(nnA, ⟨prev5, cur5⟩)], [], 0⟩)).1) spnU =
        some (lookupEM cur5 spnU) ∧
    lookupA ((Update em5 (some ⟨[(nnA, ⟨prev5, cur5⟩)], [], 0⟩)).1) spnT = none ∧
    lookupA ((Update em5 (some ⟨[(nnA, ⟨prev5, cur5⟩)], [], 0⟩)).1) spnW = lookupA em5 spnW ∧
    (Update em5 (some trkEmpty)).1 = em5 := by
  have h := update_single_change_postcondition em5 prev5 cur5 nnA [] 0
  exact ⟨h.1 spnU (by decide), h.2.1 spnT (by decide) (by decide),
    h.2.2.1 spnW (by decide) (by decide), h.2.2.2 em5 trkEmpty rfl⟩

/-- Counterexample to C4 as stated: with `emC4` already binding `spnU`,
applying `(previous = ∅, current = xC4)` and then `(previous = xC4,
current = ∅)` deletes `spnU` instead of restoring its pre-existing entry. -/
theorem update_merge_unmerge_not_inverse :
    spnU ∈ xC4.map Prod.fst ∧ lookupA emC4after spnU ≠ lookupA emC4 spnU := by
  decide

/-- Claim C4 (amended): for any map in which no identity occurring in `X` is
bound, applying `(previous = ∅, current = X)` and then `(previous = X,
current = ∅)` through two `Update` cycles returns the map to its pre-`X`
state for every service-port identity occurring in `X`. -/
theorem update_merge_unmerge_inverse (em x : EndpointsMap) (nn : NamespacedName)
    (tt1 tt2 : List (NamespacedName × List Nat)) (st1 st2 : Nat)
    (h : ∀ k, k ∈ x.map Prod.fst → lookupA em k = none) :
    ∀ k, k ∈ x.map Prod.fst →
      lookupA ((Update ((Update em (some ⟨[(nn, ⟨[], x⟩)], tt1, st1⟩)).1)
        (some ⟨[(nn, ⟨x, []⟩)], tt2, st2⟩)).1) k = lookupA em k := by
  intro k hk
  have h1 : (Update em (some ⟨[(nn, ⟨[], x⟩)], tt1, st1⟩)).1 = merge em x := by
    rw [update_fst]
    rfl
  have h2 : (Update (merge em x) (some ⟨[(nn, ⟨x, []⟩)], tt2, st2⟩)).1 =
      unmerge (merge em x) x := by
    rw [update_fst]
    rfl
  rw [h1, h2, lookupA_unmerge]
  simp [hk, h k hk]

/-- Witness for C4 (amended): a concrete map disjoint from `xC4`, taken
through the two apply cycles. -/
theorem update_merge_unmerge_inverse_witness :
    lookupA ((Update ((Update emC4w (some ⟨[(nnA, ⟨[], xC4⟩)], [], 0⟩)).1)
      (some ⟨[(nnA, ⟨xC4, []⟩)], [], 0⟩)).1) spnU = lookupA emC4w spnU :=
  update_merge_unmerge_inverse emC4w xC4 nnA [] [] 0 0 (by decide) spnU (by decide)

/-! Lemmas about the staleness / activation detector, and claims C1 and C2. -/

theorem lookupA_some_mem {α β : Type} [DecidableEq α] {m : List (α × β)} {k : α} {v : β}
    (h : lookupA m k = some v) : (k, v) ∈ m := by
  induction m with
  | nil => simp [lookupA] at h
  | cons p rest ih =>
      obtain ⟨a, b⟩ := p
      rw [lookupA] at h
      by_cases hak : a = k
      · rw [if_pos hak] at h
        injection h with h
        subst hak
        subst h
        exact List.mem_cons_self _ _
      · rw [if_neg hak] at h
        exact List.mem_cons_of_mem _ (ih h)

theorem mem_lookupA_of_nodup {α β : Type} [DecidableEq α] {m : List (α × β)}
    (hnd : (m.map Prod.fst).Nodup) {k : α} {v : β} (h : (k, v) ∈ m) :
    lookupA m k = some v := by
  induction m with
  | nil => cases h
  | cons p rest ih =>
      obtain ⟨a, b⟩ := p
      rw [List.map_cons, List.nodup_cons] at hnd
      rcases List.mem_cons.mp h with h | h
      · rw [Prod.mk.injEq] at h
        rw [lookupA, if_pos h.1.symm, h.2]
      · have hak : ¬ a = k := fun e => hnd.1 (e ▸ List.mem_map.mpr ⟨(k, v), h, rfl⟩)
        rw [lookupA, if_neg hak]
        exact ih hnd.2 h

theorem endpointFoundInNew_eq_false_iff (newList : List BaseEndpointInfo)
    (ep : BaseEndpointInfo) :
    endpointFoundInNew newList ep = false ↔
      ¬ ∃ e2, e2 ∈ newList ∧ e2.endpoint = ep.endpoint ∧ e2.serving = ep.serving := by
  rw [Bool.eq_false_iff]
  simp [endpointFoundInNew, List.any_eq_true, Bool.and_eq_true, beq_iff_eq]

theorem mem_staleForList (newList : List BaseEndpointInfo) (spn : ServicePortName)
    (epList : List BaseEndpointInfo) (s : String) (spn2 : ServicePortName) :
    (⟨s, spn2⟩ : ServiceEndpoint) ∈ staleForList newList spn epList ↔
      spn2 = spn ∧ ∃ ep, ep ∈ epList ∧ ep.serving = true ∧
        endpointFoundInNew newList ep = false ∧ ep.endpoint = s := by
  induction epList with
  | nil => simp [staleForList]
  | cons ep rest ih =>
      simp only [staleForList, List.mem_append, ih]
      constructor
      · rintro (hhead | ⟨hspn, w, hw, hws, hwf, hwe⟩)
        · by_cases hcond : (ep.serving && !endpointFoundInNew newList ep) = true
          · rw [if_pos hcond] at hhead
            have h := List.mem_singleton.mp hhead
            rw [ServiceEndpoint.mk.injEq] at h
            rw [Bool.and_eq_true, Bool.not_eq_true'] at hcond
            exact ⟨h.2, ep, List.mem_cons_self _ _, hcond.1, hcond.2, h.1.symm⟩
          · rw [if_neg hcond] at hhead
            simp at hhead
        · exact ⟨hspn, w, List.mem_cons_of_mem _ hw, hws, hwf, hwe⟩
      · rintro ⟨hspn, w, hw, hws, hwf, hwe⟩
        rcases List.mem_cons.mp hw with hw | hw
        · rw [hw] at hws hwf hwe
          left
          have hcond : (ep.serving && !endpointFoundInNew newList ep) = true := by
            rw [Bool.and_eq_true, Bool.not_eq_true']
            exact ⟨hws, hwf⟩
          rw [if_pos hcond]
          simp [ServiceEndpoint.mk.injEq, hspn, hwe]
        · exact Or.inr ⟨hspn, w, hw, hws, hwf, hwe⟩

theorem mem_staleUDPEndpoints (newEM oldEM : EndpointsMap) (se : ServiceEndpoint) :
    se ∈ staleUDPEndpoints newEM oldEM ↔
      ∃ p, p ∈ oldEM ∧ p.1.protocol = Protocol.UDP ∧
        se ∈ staleForList (lookupEM newEM p.1) p.1 p.2 := by
  induction oldEM with
  | nil => simp [staleUDPEndpoints]
  | cons p rest ih =>
      obtain ⟨spn, epList⟩ := p
      by_cases hU : spn.protocol = Protocol.UDP
      · simp only [staleUDPEndpoints]
        rw [if_neg (fun h => h hU), List.mem_append, ih]
        constructor
        · rintro (h | ⟨q, hq, hqU, hqmem⟩)
          · exact ⟨(spn, epList), List.mem_cons_self _ _, hU, h⟩
          · exact ⟨q, List.mem_cons_of_mem _ hq, hqU, hqmem⟩
        · rintro ⟨q, hq, hqU, hqmem⟩
          rcases List.mem_cons.mp hq with hq | hq
          · subst hq
            exact Or.inl hqmem
          · exact Or.inr ⟨q, hq, hqU, hqmem⟩
      · simp only [staleUDPEndpoints]
        rw [if_pos hU, List.nil_append, ih]
        constructor
        · rintro ⟨q, hq, hqU, hqmem⟩
          exact ⟨q, List.mem_cons_of_mem _ hq, hqU, hqmem⟩
        · rintro ⟨q, hq, hqU, hqmem⟩
          rcases List.mem_cons.mp hq with hq | hq
          · subst hq
            exact absurd hqU hU
          · exact ⟨q, hq, hqU, hqmem⟩

/-- Claim C1: a pair (endpoint identity string, service-port identity) is in
the stale-UDP output of `detectStaleConntrackEntries` iff the identity's
protocol is UDP and the previous map's list for it holds a serving endpoint
with that identity string such that no endpoint of the current map's list
for the identity has both the same identity string and the same serving
flag; in particular previously non-serving endpoints and non-UDP identities
are never emitted. -/
theorem detectStale_deleted_iff (oldEM newEM : EndpointsMap)
    (hnd : (oldEM.map Prod.fst).Nodup) (s : String) (spn : ServicePortName) :
    (⟨s, spn⟩ : ServiceEndpoint) ∈ (detectStaleConntrackEntries oldEM newEM).1 ↔
      spn.protocol = Protocol.UDP ∧
      ∃ ep, ep ∈ lookupEM oldEM spn ∧ ep.serving = true ∧ ep.endpoint = s ∧
        ¬ ∃ e2, e2 ∈ lookupEM newEM spn ∧ e2.endpoint = ep.endpoint ∧
          e2.serving = ep.serving := by
  rw [show (detectStaleConntrackEntries oldEM newEM).1 = staleUDPEndpoints newEM oldEM
    from rfl, mem_staleUDPEndpoints]
  constructor
  · rintro ⟨⟨spn1, l⟩, hp, hU, hmem⟩
    rw [mem_staleForList] at hmem
    obtain ⟨hspn, ep, hepl, hserv, hfound, hend⟩ := hmem
    subst hspn
    refine ⟨hU, ep, ?_, hserv, hend, ?_⟩
    · rw [lookupEM, mem_lookupA_of_nodup hnd hp]
      exact hepl
    · exact (endpointFoundInNew_eq_false_iff _ _).mp hfound
  · rintro ⟨hU, ep, hepl, hserv, hend, hnotfound⟩
    cases hl : lookupA oldEM spn with
    | none =>
        rw [lookupEM, hl] at hepl
        simp at hepl
    | some l =>
        refine ⟨(spn, l), lookupA_some_mem hl, hU, ?_⟩
        rw [mem_staleForList]
        refine ⟨rfl, ep, ?_, hserv, ?_, hend⟩
        · rw [lookupEM, hl] at hepl
          exact hepl
        · exact (endpointFoundInNew_eq_false_iff _ _).mpr hnotfound

/-- Witness for C1: a serving UDP endpoint present before and absent after
is emitted as stale. -/
theorem detectStale_deleted_iff_witness :
    ((oldW.map Prod.fst).Nodup) ∧
      (⟨"10.0.0.1:80", spnU⟩ : ServiceEndpoint) ∈ (detectStaleConntrackEntries oldW []).1 :=
  ⟨by decide,
   (detectStale_deleted_iff oldW [] (by decide) ep0.endpoint spnU).mpr (by decide)⟩

theorem mem_newlyActiveUDP (oldEM newEM : EndpointsMap) (spn : ServicePortName) :
    spn ∈ newlyActiveUDP oldEM newEM ↔
      ∃ p, p ∈ newEM ∧ p.1 = spn ∧ spn.protocol = Protocol.UDP ∧
        servingCount p.2 > 0 ∧ servingCount (lookupEM oldEM spn) = 0 := by
  induction newEM with
  | nil => simp [newlyActiveUDP]
  | cons p rest ih =>
      obtain ⟨spn1, epList⟩ := p
      by_cases hU : spn1.protocol = Protocol.UDP
      · by_cases hc : servingCount epList > 0 ∧ servingCount (lookupEM oldEM spn1) = 0
        · simp only [newlyActiveUDP]
          rw [if_neg (fun h => h hU), if_pos hc, List.singleton_append]
          constructor
          · intro h
            rcases List.mem_cons.mp h with h | h
            · subst h
              exact ⟨(spn, epList), List.mem_cons_self _ _, rfl, hU, hc.1, hc.2⟩
            · obtain ⟨q, hq, hq1, hqU, hqpos, hqzero⟩ := ih.mp h
              exact ⟨q, List.mem_cons_of_mem _ hq, hq1, hqU, hqpos, hqzero⟩
          · rintro ⟨q, hq, hq1, hqU, hqpos, hqzero⟩
            rcases List.mem_cons.mp hq with hq | hq
            · subst hq
              exact List.mem_cons.mpr (Or.inl hq1.symm)
            · exact List.mem_cons.mpr
                (Or.inr (ih.mpr ⟨q, hq, hq1, hqU, hqpos, hqzero⟩))
        · simp only [newlyActiveUDP]
          rw [if_neg (fun h => h hU), if_neg hc, List.nil_append, ih]
          constructor
          · rintro ⟨q, hq, hq1, hqU, hqpos, hqzero⟩
            exact ⟨q, List.mem_cons_of_mem _ hq, hq1, hqU, hqpos, hqzero⟩
          · rintro ⟨q, hq, hq1, hqU, hqpos, hqzero⟩
            rcases List.mem_cons.mp hq with hq | hq
            · subst hq
              cases hq1
              exact absurd ⟨hqpos, hqzero⟩ hc
            · exact ⟨q, hq, hq1, hqU, hqpos, hqzero⟩
      · simp only [newlyActiveUDP]
        rw [if_pos hU, List.nil_append, ih]
        constructor
        · rintro ⟨q, hq, hq1, hqU, hqpos, hqzero⟩
          exact ⟨q, List.mem_cons_of_mem _ hq, hq1, hqU, hqpos, hqzero⟩
        · rintro ⟨q, hq, hq1, hqU, hqpos, hqzero⟩
          rcases List.mem_cons.mp hq with hq | hq
          · subst hq
            cases hq1
            exact absurd hqU hU
          · exact ⟨q, hq, hq1, hqU, hqpos, hqzero⟩

/-- Claim C2: a service-port identity is in the newly-active output of
`detectStaleConntrackEntries` iff its protocol is UDP, it is present in the
current map, its current list has a positive serving count, and its previous
list (empty when the identity is absent from the previous map) has serving
count zero. -/
theorem detectStale_newlyActive_iff (oldEM newEM : EndpointsMap)
    (hnd : (newEM.map Prod.fst).Nodup) (spn : ServicePortName) :
    spn ∈ (detectStaleConntrackEntries oldEM newEM).2 ↔
      spn.protocol = Protocol.UDP ∧ spn ∈ newEM.map Prod.fst ∧
        servingCount (lookupEM newEM spn) > 0 ∧
        servingCount (lookupEM oldEM spn) = 0 := by
  rw [show (detectStaleConntrackEntries oldEM newEM).2 = newlyActiveUDP oldEM newEM
    from rfl, mem_newlyActiveUDP]
  constructor
  · rintro ⟨⟨spn1, epList⟩, hp, hspn, hU, hpos, hzero⟩
    cases hspn
    refine ⟨hU, List.mem_map.mpr ⟨(spn1, epList), hp, rfl⟩, ?_, hzero⟩
    rw [lookupEM, mem_lookupA_of_nodup hnd hp]
    exact hpos
  · rintro ⟨hU, hmem, hpos, hzero⟩
    obtain ⟨⟨spn1, epList⟩, hp, hspn⟩ := List.mem_map.mp hmem
    cases hspn
    refine ⟨(spn1, epList), hp, rfl, hU, ?_, hzero⟩
    rw [lookupEM, mem_lookupA_of_nodup hnd hp] at hpos
    exact hpos

/-- Witness for C2: a UDP service port going from zero serving endpoints to
one is emitted as newly active. -/
theorem detectStale_newlyActive_iff_witness :
    ((newW.map Prod.fst).Nodup) ∧ spnU ∈ (detectStaleConntrackEntries [] newW).2 :=
  ⟨by decide, (detectStale_newlyActive_iff [] newW (by decide) spnU).mpr (by decide)⟩

/-! Claims about the ingest operation (C3, C8, C6). -/

/-- Claim C3 (evaluating the code at the failing input): `EndpointSliceUpdate`
reads `endpointSlice.AddressType` in its first statement, before the
`endpointSlice == nil` guard, so a nil slice makes the call panic (`none`)
for either value of the removal flag — it does not log, return false and
leave state untouched as the (unreachable) guard intends. -/
theorem endpointSliceUpdate_nil_panics (parse : String → Option Nat)
    (ect : EndpointsChangeTracker) (cacheChangeNeeded : Bool)
    (cachePendingAfter : List (NamespacedName × endpointsChange)) (removeSlice : Bool) :
    EndpointSliceUpdate parse ect cacheChangeNeeded cachePendingAfter none removeSlice =
      none := rfl

/-- Counterexample to C8 as stated: a concrete update with unsupported
address type `FQDN` is rejected with a false return and no tracker mutation,
but it is *not* counted — neither metrics counter is incremented, because
`metrics.EndpointChangesTotal.Inc()` only runs after the address-type
check. -/
theorem endpointSliceUpdate_unsupported_not_counted :
    EndpointSliceUpdate parse0 ect8 true pend8 (some sliceFQDN) false =
      some { changed := false, ect := ect8,
             endpointChangesTotalIncremented := false,
             endpointChangesPendingIncremented := false } := by
  decide

/-- Claim C8 (amended): an ingest call whose update has an address type
outside the supported set (IPv4, IPv6) is rejected: it is logged, causes no
mutation of tracker state, and returns false rather than an error; it is not
counted — neither metrics counter is incremented. -/
theorem endpointSliceUpdate_unsupported_rejected (parse : String → Option Nat)
    (ect : EndpointsChangeTracker) (cacheChangeNeeded : Bool)
    (cachePendingAfter : List (NamespacedName × endpointsChange))
    (slice : EndpointSlice) (removeSlice : Bool)
    (h : supportedEndpointSliceAddressTypes.contains slice.addressType = false) :
    EndpointSliceUpdate parse ect cacheChangeNeeded cachePendingAfter (some slice)
        removeSlice =
      some { changed := false, ect := ect,
             endpointChangesTotalIncremented := false,
             endpointChangesPendingIncremented := false } := by
  have hm : slice.addressType ∉ supportedEndpointSliceAddressTypes := by simpa using h
  simp [EndpointSliceUpdate, hm]

/-- Witness for C8 (amended): a concrete rejected removal ingest. -/
theorem endpointSliceUpdate_unsupported_rejected_witness :
    (supportedEndpointSliceAddressTypes.contains sliceFQDN.addressType = false) ∧
      EndpointSliceUpdate parse0 ect8 false [] (some sliceFQDN) true =
        some { changed := false, ect := ect8,
               endpointChangesTotalIncremented := false,
               endpointChangesPendingIncremented := false } :=
  ⟨by decide,
   endpointSliceUpdate_unsupported_rejected parse0 ect8 false [] sliceFQDN true (by decide)⟩

theorem getLastChangeTriggerTime_of_lookup_none (parse : String → Option Nat)
    (theAnnotations : List (String × String))
    (h : lookupA theAnnotations endpointsLastChangeTriggerTimeKey = none) :
    getLastChangeTriggerTime parse theAnnotations = 0 := by
  rw [getLastChangeTriggerTime, h]

theorem getLastChangeTriggerTime_of_lookup_some (parse : String → Option Nat)
    (theAnnotations : List (String × String)) (v : String)
    (h : lookupA theAnnotations endpointsLastChangeTriggerTimeKey = some v) :
    getLastChangeTriggerTime parse theAnnotations = (parse v).getD 0 := by
  rw [getLastChangeTriggerTime, h]
  cases hp : parse v <;> simp [hp]

theorem lookupA_checkoutTriggerTimesInto_absent (buf : List (NamespacedName × List Nat))
    (acc : List (NamespacedName × List Nat)) (nn : NamespacedName)
    (h : lookupA buf nn = none) :
    lookupA (checkoutTriggerTimesInto acc buf) nn = lookupA acc nn := by
  induction buf generalizing acc with
  | nil => rfl
  | cons p rest ih =>
      obtain ⟨k, v⟩ := p
      rw [lookupA] at h
      by_cases hk : k = nn
      · rw [if_pos hk] at h
        exact absurd h (by simp)
      · rw [if_neg hk] at h
        rw [show checkoutTriggerTimesInto acc ((k, v) :: rest) =
            checkoutTriggerTimesInto (setA acc k ((lookupA acc k).getD [] ++ v)) rest
          from rfl]
        rw [ih _ h, lookupA_setA, if_neg (fun e => hk e.symm)]

/-- Claim C6: whenever `EndpointSliceUpdate` reports an observable change
(returns true), a removal discards all buffered trigger timestamps for the
update's owning-object key — the key is gone from the buffer, and a
subsequent trigger-time checkout contributes nothing for it — and a
non-removal appends a trigger timestamp for the key iff the annotation is
present, parses successfully, and is strictly after the tracker's
construction time; otherwise the buffer entry for the key is unchanged. -/
theorem endpointSliceUpdate_triggerTimes (parse : String → Option Nat)
    (ect : EndpointsChangeTracker)
    (cachePendingAfter : List (NamespacedName × endpointsChange))
    (slice : EndpointSlice) (removeSlice : Bool) (nn : NamespacedName)
    (haddr : supportedEndpointSliceAddressTypes.contains slice.addressType = true)
    (hkey : slice.ownerKey = some nn) :
    ∃ out, EndpointSliceUpdate parse ect true cachePendingAfter (some slice) removeSlice =
        some out ∧ out.changed = true ∧
      (removeSlice = true →
        lookupA out.ect.lastChangeTriggerTimes nn = none ∧
        ∀ acc, lookupA (checkoutTriggerTimesInto acc out.ect.lastChangeTriggerTimes) nn =
          lookupA acc nn) ∧
      (removeSlice = false →
        (∀ v t, lookupA slice.annotations endpointsLastChangeTriggerTimeKey = some v →
          parse v = some t → ect.trackerStartTime < t →
          (lookupA out.ect.lastChangeTriggerTimes nn).getD [] =
            (lookupA ect.lastChangeTriggerTimes nn).getD [] ++ [t]) ∧
        ((¬ ∃ v t, lookupA slice.annotations endpointsLastChangeTriggerTimeKey = some v ∧
            parse v = some t ∧ ect.trackerStartTime < t) →
          lookupA out.ect.lastChangeTriggerTimes nn = lookupA ect.lastChangeTriggerTimes nn)) := by
  have hmem : slice.addressType ∈ supportedEndpointSliceAddressTypes := by simpa using haddr
  cases removeSlice with
  | true =>
      refine ⟨{ changed := true,
                ect := { pendingChanges := cachePendingAfter,
                         lastChangeTriggerTimes := delA ect.lastChangeTriggerTimes nn,
                         trackerStartTime := ect.trackerStartTime },
                endpointChangesTotalIncremented := true,
                endpointChangesPendingIncremented := true }, ?_, rfl, ?_, ?_⟩
      · simp [EndpointSliceUpdate, hmem, hkey]
      · intro _
        constructor
        · rw [lookupA_delA, if_pos rfl]
        · intro acc
          exact lookupA_checkoutTriggerTimesInto_absent _ _ _
            (by rw [lookupA_delA, if_pos rfl])
      · intro h
        exact absurd h (by simp)
  | false =>
      by_cases hcond : (getLastChangeTriggerTime parse slice.annotations ≠ 0 ∧
          ect.trackerStartTime < getLastChangeTriggerTime parse slice.annotations)
      · refine ⟨{ changed := true,
                  ect := { pendingChanges := cachePendingAfter,
                           lastChangeTriggerTimes := setA ect.lastChangeTriggerTimes nn
                             ((lookupA ect.lastChangeTriggerTimes nn).getD [] ++
                               [getLastChangeTriggerTime parse slice.annotations]),
                           trackerStartTime := ect.trackerStartTime },
                  endpointChangesTotalIncremented := true,
                  endpointChangesPendingIncremented := true }, ?_, rfl, ?_, ?_⟩
        · simp [EndpointSliceUpdate, hmem, hkey, hcond]
        · intro h
          exact absurd h (by simp)
        · intro _
          constructor
          · intro v t hv hpt hlt
            have ht0 : getLastChangeTriggerTime parse slice.annotations = t := by
              rw [getLastChangeTriggerTime_of_lookup_some parse slice.annotations v hv, hpt]
              rfl
            simp only [ht0]
            rw [lookupA_setA, if_pos rfl]
            rfl
          · intro hne
            obtain ⟨hnz, hlt⟩ := hcond
            exfalso
            apply hne
            cases hl : lookupA slice.annotations endpointsLastChangeTriggerTimeKey with
            | none =>
                rw [getLastChangeTriggerTime_of_lookup_none parse slice.annotations hl] at hnz
                exact absurd rfl hnz
            | some v =>
                cases hp : parse v with
                | none =>
                    rw [getLastChangeTriggerTime_of_lookup_some parse slice.annotations v hl,
                      hp] at hnz
                    exact absurd rfl hnz
                | some t =>
                    have ht0 : getLastChangeTriggerTime parse slice.annotations = t := by
                      rw [getLastChangeTriggerTime_of_lookup_some parse slice.annotations v hl,
                        hp]
                      rfl
                    exact ⟨v, t, rfl, hp, ht0 ▸ hlt⟩
      · refine ⟨{ changed := true,
                  ect := { pendingChanges := cachePendingAfter,
                           lastChangeTriggerTimes := ect.lastChangeTriggerTimes,
                           trackerStartTime := ect.trackerStartTime },
                  endpointChangesTotalIncremented := true,
                  endpointChangesPendingIncremented := true }, ?_, rfl, ?_, ?_⟩
        · simp [EndpointSliceUpdate, hmem, hkey, hcond]
        · intro h
          exact absurd h (by simp)
        · intro _
          constructor
          · intro v t hv hpt hlt
            exfalso
            apply hcond
            have ht0 : getLastChangeTriggerTime parse slice.annotations = t := by
              rw [getLastChangeTriggerTime_of_lookup_some parse slice.annotations v hv, hpt]
              rfl
            constructor
            · rw [ht0]
              exact Nat.pos_iff_ne_zero.mp (Nat.lt_of_le_of_lt (Nat.zero_le _) hlt)
            · rw [ht0]
              exact hlt
          · intro _
            rfl

/-- Witness for C6: a concrete non-removal ingest whose annotation parses to
instant `5`, after the tracker's construction instant `1`, appends `5` to the
key's buffered trigger times. -/
theorem endpointSliceUpdate_triggerTimes_witness :
    ∃ out, EndpointSliceUpdate parse0 ect6 true [] (some slice6) false = some out ∧
      out.changed = true ∧
      (false = true →
        lookupA out.ect.lastChangeTriggerTimes nnA = none ∧
        ∀ acc, lookupA (checkoutTriggerTimesInto acc out.ect.lastChangeTriggerTimes) nnA =
          lookupA acc nnA) ∧
      (false = false →
        (∀ v t, lookupA slice6.annotations endpointsLastChangeTriggerTimeKey = some v →
          parse0 v = some t → ect6.trackerStartTime < t →
          (lookupA out.ect.lastChangeTriggerTimes nnA).getD [] =
            (lookupA ect6.lastChangeTriggerTimes nnA).getD [] ++ [t]) ∧
        ((¬ ∃ v t, lookupA slice6.annotations endpointsLastChangeTriggerTimeKey = some v ∧
            parse0 v = some t ∧ ect6.trackerStartTime < t) →
          lookupA out.ect.lastChangeTriggerTimes nnA = lookupA ect6.lastChangeTriggerTimes nnA)) :=
  endpointSliceUpdate_triggerTimes parse0 ect6 [] slice6 false nnA (by decide) (by decide)

/-! Lemmas about local ready endpoint counting, and claims C7 and C10. -/

theorem lookupIPs_addLocalIP (m : List (NamespacedName × List String))
    (n : NamespacedName) (ip : String) (q : NamespacedName) :
    lookupIPs (addLocalIP m n ip) q =
      if q = n then insertSet (lookupIPs m q) ip else lookupIPs m q := by
  rw [lookupIPs, addLocalIP, lookupA_setA]
  by_cases hq : q = n
  · rw [if_pos hq, if_pos hq, hq]
    rfl
  · rw [if_neg hq, if_neg hq]
    rfl

theorem lookupIPs_localIPsOfList (eps : List BaseEndpointInfo) (n : NamespacedName)
    (m : List (NamespacedName × List String)) (q : NamespacedName) :
    lookupIPs (localIPsOfList n eps m) q =
      if q = n then
        ((eps.filter (fun ep => ep.ready && ep.isLocal)).map (fun ep => ep.ip)).foldl
          insertSet (lookupIPs m q)
      else lookupIPs m q := by
  induction eps generalizing m with
  | nil => by_cases hq : q = n <;> simp [localIPsOfList, hq]
  | cons ep rest ih =>
      have hstep : localIPsOfList n (ep :: rest) m =
          localIPsOfList n rest
            (if !ep.ready then m else if ep.isLocal then addLocalIP m n ep.ip else m) := rfl
      rw [hstep]
      cases hr : ep.ready with
      | false =>
          by_cases hq : q = n
          · subst hq
            simp [ih, List.filter_cons, hr]
          · simp [ih, hq, List.filter_cons, hr]
      | true =>
          cases hl : ep.isLocal with
          | false =>
              by_cases hq : q = n
              · subst hq
                simp [ih, List.filter_cons, hr, hl]
              · simp [ih, hq, List.filter_cons, hr, hl]
          | true =>
              by_cases hq : q = n
              · subst hq
                simp [ih, List.filter_cons, hr, hl, lookupIPs_addLocalIP]
              · simp [ih, hq, List.filter_cons, hr, hl, lookupIPs_addLocalIP]

theorem lookupIPs_localIPsLoop (entries : EndpointsMap)
    (m : List (NamespacedName × List String)) (q : NamespacedName) :
    lookupIPs (localIPsLoop entries m) q =
      (readyLocalIPsSpec q entries).foldl insertSet (lookupIPs m q) := by
  induction entries generalizing m with
  | nil => rfl
  | cons p rest ih =>
      obtain ⟨spn, epList⟩ := p
      rw [show localIPsLoop ((spn, epList) :: rest) m =
          localIPsLoop rest (localIPsOfList spn.namespacedName epList m) from rfl]
      rw [ih, lookupIPs_localIPsOfList]
      by_cases hq : spn.namespacedName = q
      · rw [if_pos hq.symm]
        simp only [readyLocalIPsSpec, if_pos hq]
        rw [List.foldl_append]
      · rw [if_neg (fun e => hq e.symm)]
        simp only [readyLocalIPsSpec, if_neg hq]
        rw [List.nil_append]

theorem toFinset_insertSet (s : List String) (x : String) :
    (insertSet s x).toFinset = insert x s.toFinset := by
  rw [insertSet]
  by_cases hx : x ∈ s
  · rw [if_pos hx]
    exact (Finset.insert_eq_self.mpr (List.mem_toFinset.mpr hx)).symm
  · rw [if_neg hx, List.toFinset_append]
    simp [Finset.union_comm, Finset.insert_eq]

theorem nodup_insertSet (s : List String) (x : String) (h : s.Nodup) :
    (insertSet s x).Nodup := by
  rw [insertSet]
  by_cases hx : x ∈ s
  · rw [if_pos hx]
    exact h
  · rw [if_neg hx]
    rw [List.nodup_append]
    refine ⟨h, List.nodup_singleton x, ?_⟩
    intro a ha hax
    exact hx ((List.mem_singleton.mp hax) ▸ ha)

theorem insertSet_ne_nil (s : List String) (x : String) : insertSet s x ≠ [] := by
  rw [insertSet]
  by_cases hx : x ∈ s
  · rw [if_pos hx]
    intro he
    rw [he] at hx
    cases hx
  · rw [if_neg hx]
    simp

theorem toFinset_foldl_insertSet (xs : List String) (s : List String) :
    (xs.foldl insertSet s).toFinset = s.toFinset ∪ xs.toFinset := by
  induction xs generalizing s with
  | nil => simp
  | cons x xs ih =>
      rw [List.foldl_cons, ih, toFinset_insertSet, Finset.insert_union,
        List.toFinset_cons, Finset.union_insert]

theorem nodup_foldl_insertSet (xs : List String) (s : List String) (h : s.Nodup) :
    (xs.foldl insertSet s).Nodup := by
  induction xs generalizing s with
  | nil => exact h
  | cons x xs ih =>
      rw [List.foldl_cons]
      exact ih _ (nodup_insertSet _ _ h)

theorem lookupA_map_length {α : Type} [DecidableEq α] (m : List (α × List String)) (k : α) :
    lookupA (m.map (fun p => (p.1, p.2.length))) k = (lookupA m k).map List.length := by
  induction m with
  | nil => rfl
  | cons p rest ih =>
      obtain ⟨a, v⟩ := p
      by_cases hak : a = k <;> simp [lookupA, hak, ih]

/-- Claim C7: for every authoritative map, the per-service local-ready count
reported by `LocalReadyEndpoints` equals the number of distinct IP addresses
among endpoints that are both ready and local across the endpoint lists of
all of that service's ports (an absent service reading as count 0); in
particular one local endpoint IP appearing under two ports of a service
yields count 1, not 2. -/
theorem localReadyEndpoints_distinct_ip_count :
    (∀ (em : EndpointsMap) (nsn : NamespacedName),
      (lookupA (LocalReadyEndpoints em) nsn).getD 0 =
        (readyLocalIPsSpec nsn em).toFinset.card) ∧
    lookupA (LocalReadyEndpoints emTwoPorts) nnA = some 1 := by
  constructor
  · intro em nsn
    rw [LocalReadyEndpoints, lookupA_map_length]
    have hS : lookupIPs (getLocalReadyEndpointIPs em) nsn =
        (readyLocalIPsSpec nsn em).foldl insertSet [] := by
      rw [getLocalReadyEndpointIPs, lookupIPs_localIPsLoop]
      rfl
    have hnd : (lookupIPs (getLocalReadyEndpointIPs em) nsn).Nodup := by
      rw [hS]
      exact nodup_foldl_insertSet _ _ List.nodup_nil
    have hlen : ((lookupA (getLocalReadyEndpointIPs em) nsn).map List.length).getD 0 =
        (lookupIPs (getLocalReadyEndpointIPs em) nsn).length := by
      rw [lookupIPs]
      cases lookupA (getLocalReadyEndpointIPs em) nsn <;> rfl
    rw [hlen, ← List.toFinset_card_of_nodup hnd, hS, toFinset_foldl_insertSet]
    simp
  · decide

theorem mem_setA_cases {α β : Type} [DecidableEq α] {m : List (α × β)} {k : α} {v : β}
    {q : α × β} (h : q ∈ setA m k v) : q = (k, v) ∨ q ∈ m := by
  induction m with
  | nil =>
      rw [setA] at h
      exact Or.inl (List.mem_singleton.mp h)
  | cons p rest ih =>
      obtain ⟨a, b⟩ := p
      rw [setA] at h
      by_cases hak : a = k
      · rw [if_pos hak] at h
        rcases List.mem_cons.mp h with h | h
        · exact Or.inl h
        · exact Or.inr (List.mem_cons_of_mem _ h)
      · rw [if_neg hak] at h
        rcases List.mem_cons.mp h with h | h
        · exact Or.inr (h ▸ List.mem_cons_self _ _)
        · rcases ih h with h | h
          · exact Or.inl h
          · exact Or.inr (List.mem_cons_of_mem _ h)

theorem values_ne_nil_addLocalIP (m : List (NamespacedName × List String))
    (n : NamespacedName) (ip : String) (h : ∀ q ∈ m, q.2 ≠ []) :
    ∀ q ∈ addLocalIP m n ip, q.2 ≠ [] := by
  intro q hq
  rcases mem_setA_cases hq with hq | hq
  · rw [hq]
    exact insertSet_ne_nil _ _
  · exact h q hq

theorem values_ne_nil_localIPsOfList (eps : List BaseEndpointInfo) (n : NamespacedName)
    (m : List (NamespacedName × List String)) (h : ∀ q ∈ m, q.2 ≠ []) :
    ∀ q ∈ localIPsOfList n eps m, q.2 ≠ [] := by
  induction eps generalizing m with
  | nil => exact h
  | cons ep rest ih =>
      cases hr : ep.ready with
      | false =>
          intro q hq
          have hstep : localIPsOfList n (ep :: rest) m = localIPsOfList n rest m := by
            rw [show localIPsOfList n (ep :: rest) m = localIPsOfList n rest
              (if !ep.ready then m else if ep.isLocal then addLocalIP m n ep.ip else m)
              from rfl, hr]
            rfl
          rw [hstep] at hq
          exact ih m h q hq
      | true =>
          cases hl : ep.isLocal with
          | false =>
              intro q hq
              have hstep : localIPsOfList n (ep :: rest) m = localIPsOfList n rest m := by
                rw [show localIPsOfList n (ep :: rest) m = localIPsOfList n rest
                  (if !ep.ready then m else if ep.isLocal then addLocalIP m n ep.ip else m)
                  from rfl, hr, hl]
                rfl
              rw [hstep] at hq
              exact ih m h q hq
          | true =>
              intro q hq
              have hstep : localIPsOfList n (ep :: rest) m =
                  localIPsOfList n rest (addLocalIP m n ep.ip) := by
                rw [show localIPsOfList n (ep :: rest) m = localIPsOfList n rest
                  (if !ep.ready then m else if ep.isLocal then addLocalIP m n ep.ip else m)
                  from rfl, hr, hl]
                rfl
              rw [hstep] at hq
              exact ih _ (values_ne_nil_addLocalIP m n ep.ip h) q hq

theorem values_ne_nil_localIPsLoop (entries : EndpointsMap)
    (m : List (NamespacedName × List String)) (h : ∀ q ∈ m, q.2 ≠ []) :
    ∀ q ∈ localIPsLoop entries m, q.2 ≠ [] := by
  induction entries generalizing m with
  | nil => exact h
  | cons p rest ih =>
      obtain ⟨spn, epList⟩ := p
      exact ih _ (values_ne_nil_localIPsOfList epList spn.namespacedName m h)

/-- Claim C10: every count in the map returned by `LocalReadyEndpoints` is
at least 1 — a service with zero local ready endpoint IPs is absent from the
result, never mapped to 0. -/
theorem localReadyEndpoints_values_pos (em : EndpointsMap) :
    ∀ p ∈ LocalReadyEndpoints em, 1 ≤ p.2 := by
  intro p hp
  rw [LocalReadyEndpoints] at hp
  obtain ⟨q, hq, hpq⟩ := List.mem_map.mp hp
  have hne : q.2 ≠ [] :=
    values_ne_nil_localIPsLoop em [] (by intro r hr; cases hr) q hq
  rw [← hpq]
  simpa using List.length_pos.mpr hne

/-- Witness for C10: the two-port single-IP service reports count 1, which
is at least 1. -/
theorem localReadyEndpoints_values_pos_witness :
    ((nnA, 1) ∈ LocalReadyEndpoints emTwoPorts) ∧ 1 ≤ ((nnA, 1) : NamespacedName × Nat).2 :=
  ⟨by decide, localReadyEndpoints_values_pos emTwoPorts (nnA, 1) (by decide)⟩

end Proxy
